import Mathlib

/-!
Verification of the FireLaunch content-addressed asset synchronization engine.

This file shallowly embeds the Rust source of the launcher:

* `src/storage.rs` — the `Storage` content store (deterministic paths,
  download with incremental hashing, existence/validity checks);
* `src/storage/storage.rs` — a superseded revision of the content store
  (embedded as `StorageOld`);
* `src/utils/net.rs` — `NetClient` and `download_and_hash`;
* `src/structures/version_manifest.rs` — `Rule`, `Library` and artifact
  selection;
* `src/structures/asset_index.rs` — `AssetIndex` parse/save round-trip;
* `src/gui/async_worker.rs` — the per-asset retrying download unit;
* `src/utils/parallel.rs` — the `Parallelise` bounded task pool.

The file system is modelled as an explicit map from paths (lists of
segments) to file contents (lists of bytes); the network is an oracle from
URLs to optional response bodies (`none` models a transport failure).  The
SHA-1 digest is abstracted as a parameter `digest : List Nat → String`:
the incremental hasher of the source feeds every streamed chunk into one
hasher state, which is the digest of the whole body, so the digest only
ever appears applied to full file contents.  Every storage operation
additionally returns the list of network requests it performed, so that
"no download happened" is a statement of the model.  A Rust panic is
modelled as `Option.none`.
-/

namespace FireLaunch

/-- A file-system path, as its list of segments. -/
abbrev Path := List String

/-- Rust `Path::parent`: `none` for an empty path, otherwise the path
without its last segment. -/
def Path.parent : Path → Option Path
  | [] => none
  | p => some p.dropLast

/-- The local disk: a map from paths to file contents (bytes). -/
def Disk := Path → Option (List Nat)

/-- Writing (creating or overwriting) a file on disk. -/
def Disk.update (d : Disk) (p : Path) (bytes : List Nat) : Disk :=
  fun q => if q = p then some bytes else d q

/-- Rust `PathBuf::exists`. -/
def Disk.fileExists (d : Disk) (p : Path) : Bool :=
  (d p).isSome

/-- `NetworkError` from `src/utils/net.rs` (the payloads of the transport
and IO variants are abstracted away). -/
inductive NetworkError where
  | NetworkError
  | IOError
  | DirectoryNotExists (path : Path)
deriving DecidableEq

/-- `StorageError` from `src/storage.rs`. -/
inductive StorageError where
  | IOError
  | NetworkError (e : FireLaunch.NetworkError)
  | HashMismatch (expected actual : String)
deriving DecidableEq

/-- The outcome of an effectful storage/network operation: the disk after
the call, the list of URLs requested over the network during the call, and
the returned value or error. -/
structure Eff (ε α : Type) where
  disk : Disk
  requests : List String
  result : Except ε α

/-- The Rust `?` operator applied to an effectful call, followed by a pure
continuation: errors propagate with the effects already performed. -/
def Eff.andThen {ε α β : Type} (r : Eff ε α) (k : α → Except ε β) : Eff ε β :=
  { disk := r.disk, requests := r.requests,
    result := match r.result with
      | .error e => .error e
      | .ok a => k a }

/-- `Eff.andThen` performs exactly the requests of its first stage. -/
theorem Eff.andThen_requests {ε α β : Type} (r : Eff ε α) (k : α → Except ε β) :
    (r.andThen k).requests = r.requests := rfl

/-- `Eff.andThen` leaves the disk of its first stage. -/
theorem Eff.andThen_disk {ε α β : Type} (r : Eff ε α) (k : α → Except ε β) :
    (r.andThen k).disk = r.disk := rfl

/-- `Eff.andThen` succeeds exactly when the first stage succeeds and the
continuation accepts its value. -/
theorem Eff.andThen_result_ok {ε α β : Type} (r : Eff ε α) (k : α → Except ε β)
    (b : β) : (r.andThen k).result = .ok b ↔ ∃ a, r.result = .ok a ∧ k a = .ok b := by
  cases hr : r.result <;> simp [Eff.andThen, hr]

/-- `NetClient` from `src/utils/net.rs` (the inner `reqwest::Client` is
abstracted away; only the gateway prefix is data). -/
structure NetClient where
  ipfs_gateway : String

/-- `NetClient::new`: the default gateway. -/
def NetClient.new : NetClient :=
  { ipfs_gateway := "https://ipfs.frsqr.xyz/ipfs/" }

/-- `NetClient::ipfs`: prefix the gateway onto a content locator. -/
def NetClient.ipfs (c : NetClient) (cid : String) : String :=
  c.ipfs_gateway ++ cid

/-- `download_and_hash` from `src/utils/net.rs`: refuse a destination with
no parent, perform one GET, stream the body to the destination file while
feeding the same chunks into the hasher, and return the hex digest.  The
network oracle `net` answers `none` for a transport failure (in which case
no file is created, since the GET is sent before `File::create`). -/
def download_and_hash (digest : List Nat → String) (net : String → Option (List Nat))
    (disk : Disk) (url : String) (path : Path) : Eff NetworkError String :=
  match Path.parent path with
  | none => ⟨disk, [], .error (.DirectoryNotExists path)⟩
  | some _ =>
    match net url with
    | none => ⟨disk, [url], .error .NetworkError⟩
    | some body => ⟨disk.update path body, [url], .ok (digest body)⟩

/-- `Storage` from `src/storage.rs`. -/
structure Storage where
  client : NetClient
  storage_dir : Path

/-- `Storage::get_asset_path`: `<root>/objects/<first two hash chars>/<hash>`. -/
def Storage.get_asset_path (st : Storage) (sha1_hash : String) : Path :=
  st.storage_dir ++ ["objects", sha1_hash.take 2, sha1_hash]

/-- `Storage::get_index_path`: `<root>/indexes/<hash>.json`. -/
def Storage.get_index_path (st : Storage) (sha1_hash : String) : Path :=
  st.storage_dir ++ ["indexes", sha1_hash ++ ".json"]

/-- `Storage::download_asset`: download to the deterministic path via
`download_and_hash` (directory creation is not observable in the model)
and fail with `HashMismatch(expected, actual)` when the streamed digest
disagrees with `sha1_hash`.  Neither branch deletes the written file. -/
def Storage.download_asset (st : Storage) (digest : List Nat → String)
    (net : String → Option (List Nat)) (disk : Disk) (sha1_hash path : String) :
    Eff StorageError Path :=
  let dest_path := st.get_asset_path sha1_hash
  let r := download_and_hash digest net disk (st.client.ipfs path) dest_path
  match r.result with
  | .error e => ⟨r.disk, r.requests, .error (.NetworkError e)⟩
  | .ok downloaded_hash =>
    if sha1_hash ≠ downloaded_hash then
      ⟨r.disk, r.requests, .error (.HashMismatch sha1_hash downloaded_hash)⟩
    else
      ⟨r.disk, r.requests, .ok dest_path⟩

/-- `Storage::check_asset`: `false` when the file is absent, otherwise the
comparison of the streamed file's recomputed digest against `sha1_hash`.
It touches the network never and the disk read-only. -/
def Storage.check_asset (st : Storage) (digest : List Nat → String) (disk : Disk)
    (sha1_hash : String) : Except StorageError Bool :=
  let dest_path := st.get_asset_path sha1_hash
  match disk dest_path with
  | none => .ok false
  | some body => .ok (digest body == sha1_hash)

/-- `Storage::download_asset_if_not_exists`: return the deterministic path
untouched when a file is already there (no request, no digest check),
otherwise delegate to `download_asset`. -/
def Storage.download_asset_if_not_exists (st : Storage) (digest : List Nat → String)
    (net : String → Option (List Nat)) (disk : Disk) (sha1_hash path : String) :
    Eff StorageError Path :=
  let dest_path := st.get_asset_path sha1_hash
  if disk.fileExists dest_path then
    ⟨disk, [], .ok dest_path⟩
  else
    (st.download_asset digest net disk sha1_hash path).andThen fun _ => .ok dest_path

/-- `Storage::download_asset_if_invalid`: download when the file is absent
or when `check_asset` reports a digest mismatch; otherwise return the
existing path with no network traffic. -/
def Storage.download_asset_if_invalid (st : Storage) (digest : List Nat → String)
    (net : String → Option (List Nat)) (disk : Disk) (sha1_hash path : String) :
    Eff StorageError Path :=
  let dest_path := st.get_asset_path sha1_hash
  if disk.fileExists dest_path then
    match st.check_asset digest disk sha1_hash with
    | .error e => ⟨disk, [], .error e⟩
    | .ok true => ⟨disk, [], .ok dest_path⟩
    | .ok false =>
      (st.download_asset digest net disk sha1_hash path).andThen fun _ => .ok dest_path
  else
    (st.download_asset digest net disk sha1_hash path).andThen fun _ => .ok dest_path

/-- A non-empty path has a parent (its `dropLast`). -/
theorem Path.parent_of_ne_nil (p : Path) (h : p ≠ []) :
    Path.parent p = some p.dropLast := by
  cases p with
  | nil => exact absurd rfl h
  | cons a as => rfl

/-- The deterministic asset path is never empty. -/
theorem Storage.get_asset_path_ne_nil (st : Storage) (sha1_hash : String) :
    st.get_asset_path sha1_hash ≠ [] := by
  simp [Storage.get_asset_path]

/-- C1: when the network returns a body for the resolved URL,
`Storage::download_asset` leaves the downloaded bytes on disk at the
deterministic path in every branch; if the streamed digest disagrees with
`sha1_hash` it fails with `HashMismatch(expected = sha1_hash, actual =
computed digest)` without deleting the file, and if the digests agree it
returns `Ok` with the deterministic path. -/
theorem download_asset_spec (st : Storage) (digest : List Nat → String)
    (net : String → Option (List Nat)) (disk : Disk) (sha1_hash path : String)
    (body : List Nat) (hnet : net (st.client.ipfs path) = some body) :
    ((st.download_asset digest net disk sha1_hash path).disk
        (st.get_asset_path sha1_hash) = some body) ∧
    (digest body ≠ sha1_hash →
      (st.download_asset digest net disk sha1_hash path).result
        = .error (.HashMismatch sha1_hash (digest body))) ∧
    (digest body = sha1_hash →
      (st.download_asset digest net disk sha1_hash path).result
        = .ok (st.get_asset_path sha1_hash)) := by
  have hpar := Path.parent_of_ne_nil _ (st.get_asset_path_ne_nil sha1_hash)
  simp only [Storage.download_asset, download_and_hash, hpar, hnet]
  refine ⟨?_, ?_, ?_⟩
  · by_cases h : sha1_hash = digest body <;> simp [h, Disk.update]
  · intro hne
    simp [Ne.symm hne]
  · intro heq
    simp [heq]

/-- Witness for C1 at a concrete store, network and digest function. -/
theorem download_asset_spec_witness :
    ((fun _ => some [1, 2]) : String → Option (List Nat))
        (NetClient.ipfs ⟨"g/"⟩ "cid") = some [1, 2] ∧
    (Storage.download_asset ⟨⟨"g/"⟩, ["root"]⟩ (fun _ => "abcd")
        (fun _ => some [1, 2]) (fun _ => none) "abcd" "cid").result
      = .ok (Storage.get_asset_path ⟨⟨"g/"⟩, ["root"]⟩ "abcd") :=
  ⟨rfl,
    (download_asset_spec ⟨⟨"g/"⟩, ["root"]⟩ (fun _ => "abcd")
      (fun _ => some [1, 2]) (fun _ => none) "abcd" "cid" [1, 2] rfl).2.2 rfl⟩

/-- Evaluation of `download_asset` under a transport failure. -/
theorem download_asset_of_net_none (st : Storage) (digest : List Nat → String)
    (net : String → Option (List Nat)) (disk : Disk) (sha1_hash path : String)
    (hnet : net (st.client.ipfs path) = none) :
    st.download_asset digest net disk sha1_hash path
      = ⟨disk, [st.client.ipfs path], .error (.NetworkError .NetworkError)⟩ := by
  have hpar := Path.parent_of_ne_nil _ (st.get_asset_path_ne_nil sha1_hash)
  simp [Storage.download_asset, download_and_hash, hpar, hnet]

/-- Evaluation of `download_asset` when the body's digest matches. -/
theorem download_asset_of_match (st : Storage) (digest : List Nat → String)
    (net : String → Option (List Nat)) (disk : Disk) (sha1_hash path : String)
    (body : List Nat) (hnet : net (st.client.ipfs path) = some body)
    (hd : digest body = sha1_hash) :
    st.download_asset digest net disk sha1_hash path
      = ⟨disk.update (st.get_asset_path sha1_hash) body, [st.client.ipfs path],
          .ok (st.get_asset_path sha1_hash)⟩ := by
  have hpar := Path.parent_of_ne_nil _ (st.get_asset_path_ne_nil sha1_hash)
  simp only [Storage.download_asset, download_and_hash, hpar, hnet]
  rw [if_neg (by simp [hd])]

/-- Evaluation of `download_asset` when the body's digest mismatches. -/
theorem download_asset_of_mismatch (st : Storage) (digest : List Nat → String)
    (net : String → Option (List Nat)) (disk : Disk) (sha1_hash path : String)
    (body : List Nat) (hnet : net (st.client.ipfs path) = some body)
    (hd : digest body ≠ sha1_hash) :
    st.download_asset digest net disk sha1_hash path
      = ⟨disk.update (st.get_asset_path sha1_hash) body, [st.client.ipfs path],
          .error (.HashMismatch sha1_hash (digest body))⟩ := by
  have hpar := Path.parent_of_ne_nil _ (st.get_asset_path_ne_nil sha1_hash)
  simp only [Storage.download_asset, download_and_hash, hpar, hnet]
  rw [if_pos (Ne.symm hd)]

/-- `Storage::download_asset` always performs exactly one GET, at the
gateway-resolved URL. -/
theorem download_asset_requests (st : Storage) (digest : List Nat → String)
    (net : String → Option (List Nat)) (disk : Disk) (sha1_hash path : String) :
    (st.download_asset digest net disk sha1_hash path).requests
      = [st.client.ipfs path] := by
  have hpar := Path.parent_of_ne_nil _ (st.get_asset_path_ne_nil sha1_hash)
  simp only [Storage.download_asset, download_and_hash, hpar]
  cases net (st.client.ipfs path) with
  | none => rfl
  | some body =>
    by_cases h : sha1_hash = digest body <;> simp [h]

/-- When `Storage::download_asset` succeeds, the returned path is the
deterministic one and the file written there is the network body, whose
digest equals the requested hash. -/
theorem download_asset_ok_facts (st : Storage) (digest : List Nat → String)
    (net : String → Option (List Nat)) (disk : Disk) (sha1_hash path : String)
    (p : Path) (h : (st.download_asset digest net disk sha1_hash path).result = .ok p) :
    p = st.get_asset_path sha1_hash ∧
    ∃ body, net (st.client.ipfs path) = some body ∧ digest body = sha1_hash ∧
      (st.download_asset digest net disk sha1_hash path).disk
        (st.get_asset_path sha1_hash) = some body := by
  cases hnet : net (st.client.ipfs path) with
  | none =>
    rw [download_asset_of_net_none st digest net disk sha1_hash path hnet] at h
    simp at h
  | some body =>
    by_cases hd : digest body = sha1_hash
    · rw [download_asset_of_match st digest net disk sha1_hash path body hnet hd] at h ⊢
      simp only [Except.ok.injEq] at h
      exact ⟨h.symm, body, rfl, hd, by simp [Disk.update]⟩
    · rw [download_asset_of_mismatch st digest net disk sha1_hash path body hnet hd] at h
      simp at h

/-- On an absent file, `check_asset` answers `Ok false`. -/
theorem check_asset_of_absent (st : Storage) (digest : List Nat → String) (disk : Disk)
    (sha1_hash : String) (h : disk (st.get_asset_path sha1_hash) = none) :
    st.check_asset digest disk sha1_hash = .ok false := by
  simp [Storage.check_asset, h]

/-- On a present file, `check_asset` answers the digest comparison. -/
theorem check_asset_of_present (st : Storage) (digest : List Nat → String) (disk : Disk)
    (sha1_hash : String) (body : List Nat)
    (h : disk (st.get_asset_path sha1_hash) = some body) :
    st.check_asset digest disk sha1_hash = .ok (digest body == sha1_hash) := by
  simp [Storage.check_asset, h]

/-- A present file with matching digest makes `download_asset_if_invalid`
a pure no-op returning the existing deterministic path. -/
theorem download_asset_if_invalid_noop (st : Storage) (digest : List Nat → String)
    (net : String → Option (List Nat)) (disk : Disk) (sha1_hash path : String)
    (body : List Nat) (h : disk (st.get_asset_path sha1_hash) = some body)
    (hd : digest body = sha1_hash) :
    st.download_asset_if_invalid digest net disk sha1_hash path
      = ⟨disk, [], .ok (st.get_asset_path sha1_hash)⟩ := by
  simp [Storage.download_asset_if_invalid, Disk.fileExists, h,
    check_asset_of_present st digest disk sha1_hash body h, hd]

/-- `download_asset_if_invalid` performs zero network requests exactly
when a file is already present with matching digest. -/
theorem download_asset_if_invalid_requests (st : Storage) (digest : List Nat → String)
    (net : String → Option (List Nat)) (disk : Disk) (sha1_hash path : String) :
    (st.download_asset_if_invalid digest net disk sha1_hash path).requests = [] ↔
    ∃ body, disk (st.get_asset_path sha1_hash) = some body ∧ digest body = sha1_hash := by
  cases hdisk : disk (st.get_asset_path sha1_hash) with
  | none =>
    have : (st.download_asset_if_invalid digest net disk sha1_hash path).requests
        = [st.client.ipfs path] := by
      simp only [Storage.download_asset_if_invalid, Disk.fileExists, hdisk,
        Option.isSome_none, Bool.false_eq_true, if_false]
      rw [Eff.andThen_requests, download_asset_requests]
    rw [this]
    simp [hdisk]
  | some body0 =>
    by_cases hmatch : digest body0 = sha1_hash
    · rw [download_asset_if_invalid_noop st digest net disk sha1_hash path body0 hdisk hmatch]
      exact ⟨fun _ => ⟨body0, rfl, hmatch⟩, fun _ => rfl⟩
    · have hbeq : (digest body0 == sha1_hash) = false := by simpa using hmatch
      have : (st.download_asset_if_invalid digest net disk sha1_hash path).requests
          = [st.client.ipfs path] := by
        simp only [Storage.download_asset_if_invalid, Disk.fileExists, hdisk,
          Option.isSome_some, if_true,
          check_asset_of_present st digest disk sha1_hash body0 hdisk, hbeq]
        rw [Eff.andThen_requests, download_asset_requests]
      rw [this]
      simp only [List.cons_ne_nil, false_iff]
      rintro ⟨body, hb, hd⟩
      cases hb
      exact hmatch hd

/-- Any successful `download_asset_if_invalid` returns the deterministic
path, and the file there afterwards has digest `sha1_hash`. -/
theorem download_asset_if_invalid_ok (st : Storage) (digest : List Nat → String)
    (net : String → Option (List Nat)) (disk : Disk) (sha1_hash path : String)
    (p : Path)
    (hp : (st.download_asset_if_invalid digest net disk sha1_hash path).result = .ok p) :
    p = st.get_asset_path sha1_hash ∧
    ∃ body,
      (st.download_asset_if_invalid digest net disk sha1_hash path).disk p = some body ∧
      digest body = sha1_hash := by
  cases hdisk : disk (st.get_asset_path sha1_hash) with
  | none =>
    have hform : st.download_asset_if_invalid digest net disk sha1_hash path
        = (st.download_asset digest net disk sha1_hash path).andThen
            (fun _ => .ok (st.get_asset_path sha1_hash)) := by
      simp [Storage.download_asset_if_invalid, Disk.fileExists, hdisk]
    rw [hform] at hp ⊢
    rw [Eff.andThen_result_ok] at hp
    obtain ⟨q, hq, hk⟩ := hp
    simp only [Except.ok.injEq] at hk
    obtain ⟨-, body, -, hd, hdw⟩ := download_asset_ok_facts st digest net disk
      sha1_hash path q hq
    exact ⟨hk.symm, body, by rw [Eff.andThen_disk, hk.symm]; exact hdw, hd⟩
  | some body0 =>
    by_cases hmatch : digest body0 = sha1_hash
    · rw [download_asset_if_invalid_noop st digest net disk sha1_hash path body0
        hdisk hmatch] at hp ⊢
      have hpeq : st.get_asset_path sha1_hash = p := by simpa using hp
      subst hpeq
      exact ⟨rfl, body0, hdisk, hmatch⟩
    · have hbeq : (digest body0 == sha1_hash) = false := by simpa using hmatch
      have hform : st.download_asset_if_invalid digest net disk sha1_hash path
          = (st.download_asset digest net disk sha1_hash path).andThen
              (fun _ => .ok (st.get_asset_path sha1_hash)) := by
        simp [Storage.download_asset_if_invalid, Disk.fileExists, hdisk,
          check_asset_of_present st digest disk sha1_hash body0 hdisk, hbeq]
      rw [hform] at hp ⊢
      rw [Eff.andThen_result_ok] at hp
      obtain ⟨q, hq, hk⟩ := hp
      simp only [Except.ok.injEq] at hk
      obtain ⟨-, body, -, hd, hdw⟩ := download_asset_ok_facts st digest net disk
        sha1_hash path q hq
      exact ⟨hk.symm, body, by rw [Eff.andThen_disk, hk.symm]; exact hdw, hd⟩

/-- C2: `check_asset` is `Ok false` on an absent file and otherwise the
digest comparison of the stored bytes against the hash; and
`download_asset_if_invalid` performs no network request iff the file is
present with matching digest (in which case it returns the existing path
and leaves the disk untouched), while any `Ok` return points at the
deterministic path whose on-disk bytes then have digest `sha1_hash`
(self-healing a corrupted file). -/
theorem check_and_download_if_invalid_spec (st : Storage) (digest : List Nat → String)
    (net : String → Option (List Nat)) (disk : Disk) (sha1_hash path : String) :
    (disk (st.get_asset_path sha1_hash) = none →
      st.check_asset digest disk sha1_hash = .ok false) ∧
    (∀ body, disk (st.get_asset_path sha1_hash) = some body →
      st.check_asset digest disk sha1_hash = .ok (digest body == sha1_hash)) ∧
    ((st.download_asset_if_invalid digest net disk sha1_hash path).requests = [] ↔
      ∃ body, disk (st.get_asset_path sha1_hash) = some body ∧ digest body = sha1_hash) ∧
    (∀ body, disk (st.get_asset_path sha1_hash) = some body → digest body = sha1_hash →
      st.download_asset_if_invalid digest net disk sha1_hash path
        = ⟨disk, [], .ok (st.get_asset_path sha1_hash)⟩) ∧
    (∀ p, (st.download_asset_if_invalid digest net disk sha1_hash path).result = .ok p →
      p = st.get_asset_path sha1_hash ∧
      ∃ body,
        (st.download_asset_if_invalid digest net disk sha1_hash path).disk p = some body ∧
        digest body = sha1_hash) :=
  ⟨check_asset_of_absent st digest disk sha1_hash,
    fun body hb => check_asset_of_present st digest disk sha1_hash body hb,
    download_asset_if_invalid_requests st digest net disk sha1_hash path,
    fun body hb hd => download_asset_if_invalid_noop st digest net disk sha1_hash path
      body hb hd,
    fun p hp => download_asset_if_invalid_ok st digest net disk sha1_hash path p hp⟩

/-- Witness for C2: a present file with matching digest is returned as-is,
with zero network requests. -/
theorem check_and_download_if_invalid_witness :
    (fun p => if p = ["r", "objects", "aa", "aa"] then some [7] else none :
        Disk) (Storage.get_asset_path ⟨⟨"g/"⟩, ["r"]⟩ "aa") = some [7] ∧
    Storage.download_asset_if_invalid ⟨⟨"g/"⟩, ["r"]⟩ (fun _ => "aa") (fun _ => none)
        (fun p => if p = ["r", "objects", "aa", "aa"] then some [7] else none) "aa" "cid"
      = ⟨(fun p => if p = ["r", "objects", "aa", "aa"] then some [7] else none), [],
          .ok (Storage.get_asset_path ⟨⟨"g/"⟩, ["r"]⟩ "aa")⟩ :=
  ⟨by decide,
    (check_and_download_if_invalid_spec ⟨⟨"g/"⟩, ["r"]⟩ (fun _ => "aa") (fun _ => none)
      (fun p => if p = ["r", "objects", "aa", "aa"] then some [7] else none) "aa"
      "cid").2.2.2.1 [7] (by decide) rfl⟩

/-- A present file (stale or not) makes `download_asset_if_not_exists` a
pure no-op returning the existing deterministic path. -/
theorem download_asset_if_not_exists_noop (st : Storage) (digest : List Nat → String)
    (net : String → Option (List Nat)) (disk : Disk) (sha1_hash path : String)
    (body : List Nat) (h : disk (st.get_asset_path sha1_hash) = some body) :
    st.download_asset_if_not_exists digest net disk sha1_hash path
      = ⟨disk, [], .ok (st.get_asset_path sha1_hash)⟩ := by
  simp [Storage.download_asset_if_not_exists, Disk.fileExists, h]

/-- Any successful `download_asset_if_not_exists` returns the
deterministic path and leaves some file there. -/
theorem download_asset_if_not_exists_ok (st : Storage) (digest : List Nat → String)
    (net : String → Option (List Nat)) (disk : Disk) (sha1_hash path : String)
    (p : Path)
    (hp : (st.download_asset_if_not_exists digest net disk sha1_hash path).result
      = .ok p) :
    p = st.get_asset_path sha1_hash ∧
    ∃ body,
      (st.download_asset_if_not_exists digest net disk sha1_hash path).disk p
        = some body := by
  cases hdisk : disk (st.get_asset_path sha1_hash) with
  | some body0 =>
    rw [download_asset_if_not_exists_noop st digest net disk sha1_hash path body0
      hdisk] at hp ⊢
    have hpeq : st.get_asset_path sha1_hash = p := by simpa using hp
    subst hpeq
    exact ⟨rfl, body0, hdisk⟩
  | none =>
    have hform : st.download_asset_if_not_exists digest net disk sha1_hash path
        = (st.download_asset digest net disk sha1_hash path).andThen
            (fun _ => .ok (st.get_asset_path sha1_hash)) := by
      simp [Storage.download_asset_if_not_exists, Disk.fileExists, hdisk]
    rw [hform] at hp ⊢
    rw [Eff.andThen_result_ok] at hp
    obtain ⟨q, hq, hk⟩ := hp
    simp only [Except.ok.injEq] at hk
    obtain ⟨-, body, -, -, hdw⟩ := download_asset_ok_facts st digest net disk
      sha1_hash path q hq
    exact ⟨hk.symm, body, by rw [Eff.andThen_disk, hk.symm]; exact hdw⟩

/-- C8: `download_asset_if_not_exists` returns the existing path with zero
network requests and no digest verification whenever a file is present at
the deterministic path (whatever its bytes — the result does not depend on
the digest function at all), and it is idempotent: after a successful
call, a second call — even with a different digest function, network, or
locator — performs zero requests and returns the same path with the disk
unchanged. -/
theorem download_asset_if_not_exists_spec (st : Storage) (digest : List Nat → String)
    (net : String → Option (List Nat)) (disk : Disk) (sha1_hash path : String) :
    (∀ body, disk (st.get_asset_path sha1_hash) = some body →
      st.download_asset_if_not_exists digest net disk sha1_hash path
        = ⟨disk, [], .ok (st.get_asset_path sha1_hash)⟩) ∧
    (∀ p, (st.download_asset_if_not_exists digest net disk sha1_hash path).result
        = .ok p →
      ∀ digest2 net2 path2,
        Storage.download_asset_if_not_exists st digest2 net2
            (st.download_asset_if_not_exists digest net disk sha1_hash path).disk
            sha1_hash path2
          = ⟨(st.download_asset_if_not_exists digest net disk sha1_hash path).disk,
              [], .ok p⟩) := by
  refine ⟨fun body hb => download_asset_if_not_exists_noop st digest net disk sha1_hash
    path body hb, ?_⟩
  intro p hp digest2 net2 path2
  obtain ⟨hpeq, body, hbody⟩ := download_asset_if_not_exists_ok st digest net disk
    sha1_hash path p hp
  subst hpeq
  exact download_asset_if_not_exists_noop st digest2 net2 _ sha1_hash path2 body hbody

/-- Witness for C8: with a (stale) file already on disk, the call is a
no-op. -/
theorem download_asset_if_not_exists_witness :
    (fun p => if p = ["r", "objects", "aa", "aa"] then some [9] else none :
        Disk) (Storage.get_asset_path ⟨⟨"g/"⟩, ["r"]⟩ "aa") = some [9] ∧
    Storage.download_asset_if_not_exists ⟨⟨"g/"⟩, ["r"]⟩ (fun _ => "zz") (fun _ => none)
        (fun p => if p = ["r", "objects", "aa", "aa"] then some [9] else none) "aa" "cid"
      = ⟨(fun p => if p = ["r", "objects", "aa", "aa"] then some [9] else none), [],
          .ok (Storage.get_asset_path ⟨⟨"g/"⟩, ["r"]⟩ "aa")⟩ :=
  ⟨by decide,
    (download_asset_if_not_exists_spec ⟨⟨"g/"⟩, ["r"]⟩ (fun _ => "zz") (fun _ => none)
      (fun p => if p = ["r", "objects", "aa", "aa"] then some [9] else none) "aa"
      "cid").1 [9] (by decide)⟩

/-- The superseded `Storage` of `src/storage/storage.rs` (its
`state: Arc<SharedState>` field carries no path-relevant data and is
omitted from the model). -/
structure StorageOld where
  storage_dir : Path

/-- `Storage::get_asset_path` of the superseded revision:
`<root>/assets/<first two hash chars>/<hash>`. -/
def StorageOld.get_asset_path (st : StorageOld) (sha1_hash : String) : Path :=
  st.storage_dir ++ ["assets", sha1_hash.take 2, sha1_hash]

/-- C5 counterexample: the `get_asset_path` of the cited
`src/storage/storage.rs` revision does not place blobs under an `objects`
directory — at a concrete root and hash it yields an `assets/...` path
containing no `objects` segment. -/
theorem get_asset_path_objects_counterexample :
    StorageOld.get_asset_path ⟨["root"]⟩ "abcdef"
      = ["root", "assets", "ab", "abcdef"] ∧
    "objects" ∉ StorageOld.get_asset_path ⟨["root"]⟩ "abcdef" := by
  constructor
  · decide
  · decide

/-- C5 (amended): both `get_asset_path` implementations are pure and
deterministic; the `src/storage.rs` one returns
`<root>/objects/<hh>/<hash>` while the superseded `src/storage/storage.rs`
one returns `<root>/assets/<hh>/<hash>`; in both, the last segment is the
full hash and the second-to-last segment is the first two characters of
the hash. -/
theorem get_asset_path_spec (st : Storage) (st2 : StorageOld) (sha1_hash : String)
    (hlen : 2 ≤ sha1_hash.length) :
    st.get_asset_path sha1_hash = st.get_asset_path sha1_hash ∧
    st.get_asset_path sha1_hash
      = st.storage_dir ++ ["objects", sha1_hash.take 2, sha1_hash] ∧
    st2.get_asset_path sha1_hash
      = st2.storage_dir ++ ["assets", sha1_hash.take 2, sha1_hash] ∧
    (st.get_asset_path sha1_hash).getLast? = some sha1_hash ∧
    (st.get_asset_path sha1_hash).dropLast.getLast? = some (sha1_hash.take 2) ∧
    (st2.get_asset_path sha1_hash).getLast? = some sha1_hash ∧
    (st2.get_asset_path sha1_hash).dropLast.getLast? = some (sha1_hash.take 2) := by
  have h1 : st.get_asset_path sha1_hash
      = (st.storage_dir ++ ["objects", sha1_hash.take 2]) ++ [sha1_hash] := by
    simp [Storage.get_asset_path]
  have h2 : st2.get_asset_path sha1_hash
      = (st2.storage_dir ++ ["assets", sha1_hash.take 2]) ++ [sha1_hash] := by
    simp [StorageOld.get_asset_path]
  refine ⟨rfl, rfl, rfl, ?_, ?_, ?_, ?_⟩
  · rw [h1, List.getLast?_concat]
  · rw [h1, List.dropLast_concat]
    have : st.storage_dir ++ ["objects", sha1_hash.take 2]
        = (st.storage_dir ++ ["objects"]) ++ [sha1_hash.take 2] := by simp
    rw [this, List.getLast?_concat]
  · rw [h2, List.getLast?_concat]
  · rw [h2, List.dropLast_concat]
    have : st2.storage_dir ++ ["assets", sha1_hash.take 2]
        = (st2.storage_dir ++ ["assets"]) ++ [sha1_hash.take 2] := by simp
    rw [this, List.getLast?_concat]

/-- Witness for C5 at a concrete hash of length 40. -/
theorem get_asset_path_spec_witness :
    2 ≤ ("0123456789abcdef0123456789abcdef01234567" : String).length ∧
    (Storage.get_asset_path ⟨⟨"g/"⟩, ["r"]⟩
        "0123456789abcdef0123456789abcdef01234567").getLast?
      = some "0123456789abcdef0123456789abcdef01234567" :=
  ⟨by decide,
    (get_asset_path_spec ⟨⟨"g/"⟩, ["r"]⟩ ⟨["r"]⟩
      "0123456789abcdef0123456789abcdef01234567" (by decide)).2.2.2.1⟩

/-- `HashMap::get` on an association list (keys are unique in a
deserialized map; lookup finds the binding of the key). -/
def lookupKey {α : Type} : List (String × α) → String → Option α
  | [], _ => none
  | (k, v) :: rest, key => if k = key then some v else lookupKey rest key

/-- `RuleOS` from `src/structures/version_manifest.rs`. -/
structure RuleOS where
  name : String
deriving DecidableEq

/-- `Rule` from `src/structures/version_manifest.rs`: the `action` is a
plain string, exactly as on the wire. -/
structure Rule where
  action : String
  os : Option RuleOS
deriving DecidableEq

/-- `Rule::action_to_bool`; `none` models the `panic!("Invalid action")`
hit on an action string other than `allow`/`disallow`. -/
def Rule.action_to_bool (r : Rule) : Option Bool :=
  if r.action = "allow" then some true
  else if r.action = "disallow" then some false
  else none

/-- `Rule::invert`; the panic of `action_to_bool` propagates. -/
def Rule.invert (r : Rule) (b : Bool) : Option Bool :=
  match r.action_to_bool with
  | some true => some b
  | some false => some (!b)
  | none => none

/-- `Rule::is_satisfied`, with the `cfg`-selected current OS name
(`get_os_name()` in the source) passed explicitly; `none` models the
panic on an invalid action, which is only reachable when an `os`
constraint is present. -/
def Rule.is_satisfied (r : Rule) (current_os : String) : Option Bool :=
  match r.os with
  | some os => r.invert (os.name == current_os)
  | none => some true

/-- The spec's rule algebra: no constraint evaluates true; with a
constraint, an `allow` rule passes exactly when the OS matches and a
`disallow` rule exactly when it does not. -/
def ruleSatSpec (r : Rule) (current_os : String) : Bool :=
  match r.os with
  | none => true
  | some os => (r.action == "allow") == (os.name == current_os)

/-- A valid rule evaluates, without panicking, to the spec's algebra. -/
theorem rule_sat_of_valid (r : Rule) (current_os : String)
    (hv : r.action = "allow" ∨ r.action = "disallow") :
    r.is_satisfied current_os = some (ruleSatSpec r current_os) := by
  obtain ⟨action, os⟩ := r
  cases os with
  | none => rfl
  | some os' =>
    rcases hv with h | h <;> subst h <;>
      cases hb : os'.name == current_os <;>
        simp [Rule.is_satisfied, Rule.invert, Rule.action_to_bool, ruleSatSpec, hb]

/-- C3: a rule without an `os` constraint is always satisfied; with a
constraint, the rule is satisfied iff `action == allow` agrees with
`os.name == current_os`; concretely on a `linux` host:
`allow/none ↦ true`, `allow/linux ↦ true`, `disallow/linux ↦ false`,
`allow/windows ↦ false`, `disallow/windows ↦ true`. -/
theorem rule_is_satisfied_spec (r : Rule) (current_os : String)
    (hv : r.action = "allow" ∨ r.action = "disallow") :
    (r.os = none → r.is_satisfied current_os = some true) ∧
    (∀ os, r.os = some os →
      r.is_satisfied current_os
        = some ((r.action == "allow") == (os.name == current_os))) ∧
    Rule.is_satisfied ⟨"allow", none⟩ "linux" = some true ∧
    Rule.is_satisfied ⟨"allow", some ⟨"linux"⟩⟩ "linux" = some true ∧
    Rule.is_satisfied ⟨"disallow", some ⟨"linux"⟩⟩ "linux" = some false ∧
    Rule.is_satisfied ⟨"allow", some ⟨"windows"⟩⟩ "linux" = some false ∧
    Rule.is_satisfied ⟨"disallow", some ⟨"windows"⟩⟩ "linux" = some true := by
  refine ⟨?_, ?_, by decide, by decide, by decide, by decide, by decide⟩
  · intro hos
    simp [Rule.is_satisfied, hos]
  · intro os hos
    have := rule_sat_of_valid r current_os hv
    rw [this, ruleSatSpec, hos]

/-- Witness for C3 on a concrete allow-linux rule evaluated on linux. -/
theorem rule_is_satisfied_spec_witness :
    (("allow" : String) = "allow" ∨ ("allow" : String) = "disallow") ∧
    Rule.is_satisfied ⟨"allow", some ⟨"linux"⟩⟩ "linux"
      = some ((("allow" : String) == "allow") == (("linux" : String) == "linux")) :=
  ⟨Or.inl rfl,
    (rule_is_satisfied_spec ⟨"allow", some ⟨"linux"⟩⟩ "linux" (Or.inl rfl)).2.1
      ⟨"linux"⟩ rfl⟩

/-- `Artifact` from `src/structures/version_manifest.rs`. -/
structure Artifact where
  sha1 : String
  size : Nat
  path : String
deriving DecidableEq

/-- `ArtifactDownloads`: wire maps become association lists. -/
structure ArtifactDownloads where
  artifact : Option Artifact
  classifiers : Option (List (String × Artifact))
deriving DecidableEq

/-- `Extract` from `src/structures/version_manifest.rs`. -/
structure Extract where
  exclude : List String
deriving DecidableEq

/-- `Library` from `src/structures/version_manifest.rs`. -/
structure Library where
  downloads : ArtifactDownloads
  name : String
  extract : Option Extract
  rules : Option (List Rule)
  natives : Option (List (String × String))
deriving DecidableEq

/-- Short-circuiting `Iterator::all` over rule evaluations; `none` models
a panic inside some evaluated rule (rules after a `false` are skipped). -/
def allRules (current_os : String) : List Rule → Option Bool
  | [] => some true
  | r :: rest =>
    match r.is_satisfied current_os with
    | none => none
    | some false => some false
    | some true => allRules current_os rest

/-- `Library::is_rules_satisfied`: all rules satisfied, vacuously true
without a rule list. -/
def Library.is_rules_satisfied (l : Library) (current_os : String) : Option Bool :=
  match l.rules with
  | some rules => allRules current_os rules
  | none => some true

/-- The classifier part of `Library::get_artifacts`: look the current OS
name up in `natives`, then that classifier key up in `classifiers`; every
missing link contributes nothing. -/
def Library.classifierArtifacts (l : Library) (current_os : String) : List Artifact :=
  match l.downloads.classifiers with
  | none => []
  | some classifiers =>
    match l.natives with
    | none => []
    | some natives =>
      match lookupKey natives current_os with
      | none => []
      | some native =>
        match lookupKey classifiers native with
        | none => []
        | some classifier => [classifier]

/-- `Library::get_artifacts`; `none` models the rule-evaluation panic,
which the source runs only when a plain artifact is present. -/
def Library.get_artifacts (l : Library) (current_os : String) : Option (List Artifact) :=
  match l.downloads.artifact with
  | some artifact =>
    match l.is_rules_satisfied current_os with
    | none => none
    | some sat =>
      some ((if sat then [artifact] else []) ++ l.classifierArtifacts current_os)
  | none => some (l.classifierArtifacts current_os)

/-- The classifier the spec selects: look the current OS name up in
`natives`, then that classifier key up in `classifiers`; any missing link
yields nothing. -/
def Library.specClassifier (l : Library) (current_os : String) : Option Artifact := do
  let classifiers ← l.downloads.classifiers
  let natives ← l.natives
  let native ← lookupKey natives current_os
  lookupKey classifiers native

/-- The artifact list exactly as the spec derives it: the plain artifact
iff all rules evaluate true under the spec's rule algebra, plus the
spec-selected classifier — nothing else. -/
def Library.specArtifacts (l : Library) (current_os : String) : List Artifact :=
  (match l.downloads.artifact with
    | some a =>
      if (l.rules.getD []).all (fun r => ruleSatSpec r current_os) then [a] else []
    | none => []) ++
  (l.specClassifier current_os).toList

/-- Every rule of the library carries a valid action string. -/
def Library.validActions (l : Library) : Prop :=
  ∀ r ∈ l.rules.getD [], r.action = "allow" ∨ r.action = "disallow"

/-- With valid actions, the short-circuiting conjunction equals `all` of
the spec's rule algebra. -/
theorem allRules_of_valid (current_os : String) (rs : List Rule)
    (hv : ∀ r ∈ rs, r.action = "allow" ∨ r.action = "disallow") :
    allRules current_os rs = some (rs.all (fun r => ruleSatSpec r current_os)) := by
  induction rs with
  | nil => rfl
  | cons r rest ih =>
    have hr := rule_sat_of_valid r current_os (hv r (List.mem_cons_self r rest))
    have hrest := ih (fun q hq => hv q (List.mem_cons_of_mem r hq))
    simp only [allRules, hr, List.all_cons]
    cases hspec : ruleSatSpec r current_os with
    | false => simp
    | true => simpa using hrest

/-- The classifier part agrees with the spec's derivation. -/
theorem classifierArtifacts_eq_spec (l : Library) (current_os : String) :
    l.classifierArtifacts current_os = (l.specClassifier current_os).toList := by
  unfold Library.classifierArtifacts Library.specClassifier
  cases l.downloads.classifiers with
  | none => rfl
  | some classifiers =>
    cases l.natives with
    | none => rfl
    | some natives =>
      cases hx : lookupKey natives current_os with
      | none => simp [hx]
      | some native =>
        cases hy : lookupKey classifiers native with
        | none => simp [hx, hy]
        | some classifier => simp [hx, hy]

/-- C6: for a library whose rules all carry valid actions, the derived
artifact list is exactly the spec's: the plain artifact iff every rule is
satisfied (vacuously with no rules), plus the classifier selected by the
best-effort `natives`/`classifiers` lookups, and nothing else. -/
theorem library_get_artifacts_spec (l : Library) (current_os : String)
    (hv : l.validActions) :
    l.get_artifacts current_os = some (l.specArtifacts current_os) := by
  unfold Library.get_artifacts Library.specArtifacts
  rw [classifierArtifacts_eq_spec]
  cases hart : l.downloads.artifact with
  | none => simp
  | some a =>
    cases hrules : l.rules with
    | none =>
      simp [Library.is_rules_satisfied, hrules]
    | some rs =>
      have hall := allRules_of_valid current_os rs (by
        intro q hq
        have := hv q
        rw [hrules] at this
        exact this hq)
      simp [Library.is_rules_satisfied, hrules, hall]

/-- Witness for C6: an allow-linux library with a linux native classifier
on a linux host yields both the plain and the classifier artifact. -/
theorem library_get_artifacts_spec_witness :
    Library.validActions
      ⟨⟨some ⟨"h1", 1, "p1"⟩, some [("natives-linux", ⟨"h2", 2, "p2"⟩)]⟩, "lib", none,
        some [⟨"allow", some ⟨"linux"⟩⟩], some [("linux", "natives-linux")]⟩ ∧
    Library.get_artifacts
        ⟨⟨some ⟨"h1", 1, "p1"⟩, some [("natives-linux", ⟨"h2", 2, "p2"⟩)]⟩, "lib", none,
          some [⟨"allow", some ⟨"linux"⟩⟩], some [("linux", "natives-linux")]⟩ "linux"
      = some (Library.specArtifacts
          ⟨⟨some ⟨"h1", 1, "p1"⟩, some [("natives-linux", ⟨"h2", 2, "p2"⟩)]⟩, "lib", none,
            some [⟨"allow", some ⟨"linux"⟩⟩], some [("linux", "natives-linux")]⟩ "linux") :=
  ⟨fun r hr => by
      simp at hr
      subst hr
      exact Or.inl rfl,
    library_get_artifacts_spec
      ⟨⟨some ⟨"h1", 1, "p1"⟩, some [("natives-linux", ⟨"h2", 2, "p2"⟩)]⟩, "lib", none,
        some [⟨"allow", some ⟨"linux"⟩⟩], some [("linux", "natives-linux")]⟩ "linux"
      (fun r hr => by
        simp at hr
        subst hr
        exact Or.inl rfl)⟩

/-- A JSON document (the fragment needed here; numbers are integers,
which covers every `u64` on this wire). -/
inductive Json where
  | null
  | bool (b : Bool)
  | num (n : Int)
  | str (s : String)
  | obj (fields : List (String × Json))

/-- serde deserialization of `RuleOS`: an object with a string `name`
field; unknown fields are ignored (serde's default). -/
def RuleOS.fromJson (j : Json) : Except String RuleOS :=
  match j with
  | .obj fields =>
    match lookupKey fields "name" with
    | some (.str s) => .ok ⟨s⟩
    | _ => .error "invalid RuleOS"
  | _ => .error "invalid RuleOS"

/-- serde deserialization of `Rule`: `action` is a plain `String`, so any
string is accepted; `os` is an `Option`, so an absent or `null` field
becomes `none`. -/
def Rule.fromJson (j : Json) : Except String Rule :=
  match j with
  | .obj fields =>
    match lookupKey fields "action" with
    | some (.str action) =>
      match lookupKey fields "os" with
      | none => .ok ⟨action, none⟩
      | some .null => .ok ⟨action, none⟩
      | some osj =>
        match RuleOS.fromJson osj with
        | .ok os => .ok ⟨action, some os⟩
        | .error e => .error e
    | _ => .error "invalid Rule"
  | _ => .error "invalid Rule"

/-- C10: a rule whose `os` field is present and whose action string is
neither `allow` nor `disallow` makes `Rule::is_satisfied` panic (`none` in
the model) instead of returning a boolean or a typed error; and because
`action` deserializes as a plain string, such a rule is reachable from
parsed manifest data — witnessed by the concrete document
`{"action": "foo", "os": {"name": "linux"}}`. -/
theorem rule_invalid_action_panics (r : Rule) (os : RuleOS) (current_os : String)
    (hos : r.os = some os) (h1 : r.action ≠ "allow") (h2 : r.action ≠ "disallow") :
    r.is_satisfied current_os = none ∧
    Rule.fromJson (.obj [("action", .str "foo"), ("os", .obj [("name", .str "linux")])])
      = .ok ⟨"foo", some ⟨"linux"⟩⟩ ∧
    Rule.is_satisfied ⟨"foo", some ⟨"linux"⟩⟩ "linux" = none := by
  refine ⟨?_, rfl, rfl⟩
  simp [Rule.is_satisfied, hos, Rule.invert, Rule.action_to_bool, h1, h2]

/-- Witness for C10 on the concrete parsed rule. -/
theorem rule_invalid_action_panics_witness :
    (⟨"foo", some ⟨"linux"⟩⟩ : Rule).os = some ⟨"linux"⟩ ∧
    Rule.is_satisfied ⟨"foo", some ⟨"linux"⟩⟩ "linux" = none :=
  ⟨rfl,
    (rule_invalid_action_panics ⟨"foo", some ⟨"linux"⟩⟩ ⟨"linux"⟩ "linux" rfl
      (by decide) (by decide)).1⟩

/-!
The per-asset unit of work of `AsyncWorkerModel::download_assets`
(`src/gui/async_worker.rs`): each spawned task loops on
`asset.download_if_invalid`, counting a `retries` variable that increments
after every failed attempt; once `retries > 10` it logs the error and
breaks, and after the loop the shared completed counter is incremented.
The outcome of the k-th call of `download_if_invalid` is abstracted as an
oracle `attempt : Nat → Bool` (the network and disk evolve between calls);
the unit returns how many attempts it made, the backoff sleeps (in
milliseconds) it performed, and whether it ended in success.
-/

/-- The retry loop body, with the `retries` counter (which also indexes
the next attempt) made explicit; the fuel argument is always sufficient
(the loop runs at most 11 attempts) and exists only for recursion. -/
def download_unit_loop (attempt : Nat → Bool) : Nat → Nat → Nat × List Nat × Bool
  | retries, 0 => (retries, [], false)
  | retries, fuel + 1 =>
    if attempt retries then (retries + 1, [], true)
    else if retries + 1 > 10 then (retries + 1, [], false)
    else
      let r := download_unit_loop attempt (retries + 1) fuel
      (r.1, 10 :: r.2.1, r.2.2)

/-- One per-asset unit of work: the retry loop started at `retries = 0`. -/
def download_unit (attempt : Nat → Bool) : Nat × List Nat × Bool :=
  download_unit_loop attempt 0 11

/-- The sync batch: every unit runs to completion and its outcome is
recorded; nothing aborts the iteration (the task returns `()` in the
source — failures are logged, not propagated). -/
def run_batch (units : List (Nat → Bool)) : List (Nat × List Nat × Bool) :=
  units.map download_unit

/-- The loop makes at most `fuel` further attempts and only ever sleeps
10ms at a time. -/
theorem download_unit_loop_bound (attempt : Nat → Bool) (retries fuel : Nat) :
    (download_unit_loop attempt retries fuel).1 ≤ retries + fuel ∧
    ∀ d ∈ (download_unit_loop attempt retries fuel).2.1, d = 10 := by
  induction fuel generalizing retries with
  | zero => simp [download_unit_loop]
  | succ fuel ih =>
    simp only [download_unit_loop]
    by_cases ha : attempt retries
    · simp [ha]
    · simp only [ha, if_false, Bool.false_eq_true]
      by_cases hr : retries + 1 > 10
      · simp [hr]
      · simp only [hr, if_false]
        refine ⟨?_, ?_⟩
        · have := (ih (retries + 1)).1
          omega
        · intro d hd
          simp only [List.mem_cons] at hd
          rcases hd with h | h
          · exact h
          · exact (ih (retries + 1)).2 d h

/-- A permanently failing oracle drives the loop through all remaining
attempts, sleeping between them, and ends in logged failure. -/
theorem download_unit_loop_all_fail (attempt : Nat → Bool)
    (hfail : ∀ i, attempt i = false) (retries fuel : Nat) (hfuel : retries + fuel = 11) :
    download_unit_loop attempt retries fuel
      = (11, List.replicate (10 - retries) 10, false) := by
  induction fuel generalizing retries with
  | zero =>
    have h1 : retries = 11 := by omega
    subst h1
    simp [download_unit_loop]
  | succ fuel ih =>
    simp only [download_unit_loop, hfail retries, Bool.false_eq_true, if_false]
    by_cases hr : retries + 1 > 10
    · have h1 : retries = 10 := by omega
      subst h1
      simp
    · rw [if_neg hr, ih (retries + 1) (by omega)]
      have h2 : 10 - retries = (10 - (retries + 1)) + 1 := by omega
      rw [h2, List.replicate_succ]

/-- C4: the per-asset unit performs the initial attempt plus at most 10
retries (≤ 11 attempts), every backoff between attempts is the fixed
10ms, a permanently failing asset runs exactly 11 attempts with 10 sleeps
and completes normally with a logged failure (no error leaves the unit —
its result type carries none), and the batch runs one completed unit per
asset regardless of outcomes. -/
theorem download_unit_retry_spec (attempt : Nat → Bool) (units : List (Nat → Bool)) :
    (download_unit attempt).1 ≤ 11 ∧
    (∀ d ∈ (download_unit attempt).2.1, d = 10) ∧
    ((∀ i, attempt i = false) →
      download_unit attempt = (11, List.replicate 10 10, false)) ∧
    (run_batch units).length = units.length := by
  refine ⟨?_, ?_, ?_, ?_⟩
  · simpa using (download_unit_loop_bound attempt 0 11).1
  · exact (download_unit_loop_bound attempt 0 11).2
  · intro hfail
    simpa using download_unit_loop_all_fail attempt hfail 0 11 rfl
  · simp [run_batch]

/-- Witness for C4: the all-failing oracle exhausts its 10 retries. -/
theorem download_unit_retry_spec_witness :
    (∀ i : Nat, (fun _ => false : Nat → Bool) i = false) ∧
    download_unit (fun _ => false) = (11, List.replicate 10 10, false) :=
  ⟨fun _ => rfl, (download_unit_retry_spec (fun _ => false) []).2.2.1 (fun _ => rfl)⟩

/-!
`Parallelise` from `src/utils/parallel.rs`.  Task handles are abstracted
as numeric identifiers; whether a task has finished at a given polling
round is an oracle `fin : Nat → Nat → Bool` (round, then task id).  Each
iteration of `push`'s wait loop is one `push_step`; the 5ms sleep between
iterations advances the round.  The loop may wait forever if no task ever
finishes, so the iteration is driven by fuel and `none` means the push is
still suspended.
-/

/-- `Parallelise` (the `JoinHandle` vector holds task identifiers). -/
structure Parallelise where
  tasks : List Nat
  max_tasks : Nat

/-- `Parallelise::new`: capacity defaults to twice the CPU count. -/
def Parallelise.new (max_tasks : Option Nat) (num_cpus : Nat) : Parallelise :=
  { tasks := [], max_tasks := max_tasks.getD (num_cpus * 2) }

/-- The removal scan of `push`/`wait`: drop the first finished task, if
any. -/
def removeFirstFinished (finished : Nat → Bool) : List Nat → List Nat
  | [] => []
  | t :: rest => if finished t then rest else t :: removeFirstFinished finished rest

/-- One iteration of `Parallelise::push`: enqueue as soon as the set is
below capacity (checked before and after the removal scan), otherwise
keep waiting. -/
inductive PushStep where
  | enqueued (tasks : List Nat)
  | waiting (tasks : List Nat)

/-- The body of `push`'s wait loop, for one polling round. -/
def Parallelise.push_step (p : Parallelise) (finished : Nat → Bool) (task : Nat) :
    PushStep :=
  if p.tasks.length < p.max_tasks then .enqueued (p.tasks ++ [task])
  else
    let ts := removeFirstFinished finished p.tasks
    if ts.length < p.max_tasks then .enqueued (ts ++ [task])
    else .waiting ts

/-- `Parallelise::push`: iterate `push_step`, sleeping 5ms between rounds,
until the task can be enqueued.  Returns every intermediate task set (the
trace) together with the final state, `none` while still suspended after
`fuel` rounds. -/
def Parallelise.push_go (p : Parallelise) (fin : Nat → Nat → Bool) (task : Nat) :
    Nat → Nat → List (List Nat) × Option Parallelise
  | _, 0 => ([], none)
  | round, fuel + 1 =>
    match p.push_step (fin round) task with
    | .enqueued ts => ([ts], some { p with tasks := ts })
    | .waiting ts =>
      let r := Parallelise.push_go { p with tasks := ts } fin task (round + 1) fuel
      (ts :: r.1, r.2)

/-- Submitting a whole batch of `M` units through `push`, collecting every
intermediate task set of every push. -/
def Parallelise.push_all (fin : Nat → Nat → Bool) (fuel : Nat) :
    Parallelise → List Nat → List (List Nat) × Option Parallelise
  | p, [] => ([], some p)
  | p, t :: rest =>
    match p.push_go fin t 0 fuel with
    | (trace, none) => (trace, none)
    | (trace, some p2) =>
      let r := Parallelise.push_all fin fuel p2 rest
      (trace ++ r.1, r.2)

/-- The removal scan never lengthens the task set. -/
theorem removeFirstFinished_length (finished : Nat → Bool) (ts : List Nat) :
    (removeFirstFinished finished ts).length ≤ ts.length := by
  induction ts with
  | nil => simp [removeFirstFinished]
  | cons t rest ih =>
    simp only [removeFirstFinished]
    by_cases h : finished t
    · simp [h]
    · simp only [h, if_false, Bool.false_eq_true, List.length_cons]
      omega

/-- One `push_step` from a within-capacity state stays within capacity,
in both outcomes. -/
theorem push_step_bounded (p : Parallelise) (finished : Nat → Bool) (task : Nat)
    (hp : p.tasks.length ≤ p.max_tasks) :
    (∀ ts, p.push_step finished task = .enqueued ts → ts.length ≤ p.max_tasks) ∧
    (∀ ts, p.push_step finished task = .waiting ts → ts.length ≤ p.max_tasks) := by
  unfold Parallelise.push_step
  by_cases h1 : p.tasks.length < p.max_tasks
  · simp only [h1, if_true]
    refine ⟨?_, ?_⟩
    · intro ts hts
      cases hts
      simp only [List.length_append, List.length_cons, List.length_nil]
      omega
    · intro ts hts
      cases hts
  · simp only [h1, if_false]
    have hrem := removeFirstFinished_length finished p.tasks
    by_cases h2 : (removeFirstFinished finished p.tasks).length < p.max_tasks
    · simp only [h2, if_true]
      refine ⟨?_, ?_⟩
      · intro ts hts
        cases hts
        simp only [List.length_append, List.length_cons, List.length_nil]
        omega
      · intro ts hts
        cases hts
    · simp only [h2, if_false]
      refine ⟨?_, ?_⟩
      · intro ts hts
        cases hts
      · intro ts hts
        cases hts
        omega

/-- Every state `push` reaches from a within-capacity state — every
traced task set and the final one — is within capacity, and capacity is
never changed. -/
theorem push_go_bounded (fin : Nat → Nat → Bool) (task : Nat) (fuel : Nat) :
    ∀ (p : Parallelise) (round : Nat), p.tasks.length ≤ p.max_tasks →
      (∀ ts ∈ (p.push_go fin task round fuel).1, ts.length ≤ p.max_tasks) ∧
      (∀ p2, (p.push_go fin task round fuel).2 = some p2 →
        p2.tasks.length ≤ p.max_tasks ∧ p2.max_tasks = p.max_tasks) := by
  induction fuel with
  | zero =>
    intro p round hp
    constructor
    · intro ts hts
      simp [Parallelise.push_go] at hts
    · intro p2 h
      simp [Parallelise.push_go] at h
  | succ fuel ih =>
    intro p round hp
    have hstep := push_step_bounded p (fin round) task hp
    simp only [Parallelise.push_go]
    cases hps : p.push_step (fin round) task with
    | enqueued ts =>
      have hts := hstep.1 ts hps
      constructor
      · intro ts2 hts2
        simp only [List.mem_singleton] at hts2
        subst hts2
        exact hts
      · intro p2 h
        simp only [Option.some.injEq] at h
        subst h
        exact ⟨hts, rfl⟩
    | waiting ts =>
      have hts := hstep.2 ts hps
      have hrec := ih { p with tasks := ts } (round + 1) hts
      constructor
      · intro ts2 hts2
        simp only [List.mem_cons] at hts2
        rcases hts2 with h | h
        · subst h
          exact hts
        · exact hrec.1 ts2 h
      · intro p2 h
        exact hrec.2 p2 h

/-- C7: for a pool of capacity `N` (`Parallelise::new`), pushing any
batch of `M` units never lets the task set exceed `N` — every
intermediate task set observed during every `push` of the batch, and the
final task set, have length at most `N`; `push` only enqueues once the
set is strictly below capacity, waiting (in bounded 5ms polls) otherwise. -/
theorem parallelise_push_bounded (fin : Nat → Nat → Bool) (fuel : Nat)
    (units : List Nat) (n num_cpus : Nat) :
    (∀ (p : Parallelise) (rest : List Nat),
      p.tasks.length ≤ p.max_tasks →
      (∀ ts ∈ (Parallelise.push_all fin fuel p rest).1, ts.length ≤ p.max_tasks) ∧
      (∀ p2, (Parallelise.push_all fin fuel p rest).2 = some p2 →
        p2.tasks.length ≤ p.max_tasks ∧ p2.max_tasks = p.max_tasks)) ∧
    (∀ ts ∈ (Parallelise.push_all fin fuel (Parallelise.new (some n) num_cpus) units).1,
      ts.length ≤ n) ∧
    (∀ p2,
      (Parallelise.push_all fin fuel (Parallelise.new (some n) num_cpus) units).2
        = some p2 → p2.tasks.length ≤ n) := by
  have main : ∀ (rest : List Nat) (p : Parallelise),
      p.tasks.length ≤ p.max_tasks →
      (∀ ts ∈ (Parallelise.push_all fin fuel p rest).1, ts.length ≤ p.max_tasks) ∧
      (∀ p2, (Parallelise.push_all fin fuel p rest).2 = some p2 →
        p2.tasks.length ≤ p.max_tasks ∧ p2.max_tasks = p.max_tasks) := by
    intro rest
    induction rest with
    | nil =>
      intro p hp
      constructor
      · intro ts hts
        simp [Parallelise.push_all] at hts
      · intro p2 h
        simp only [Parallelise.push_all, Option.some.injEq] at h
        subst h
        exact ⟨hp, rfl⟩
    | cons t rest ih =>
      intro p hp
      have hgo := push_go_bounded fin t fuel p 0 hp
      simp only [Parallelise.push_all]
      cases hres : (p.push_go fin t 0 fuel).2 with
      | none =>
        rw [show p.push_go fin t 0 fuel
            = ((p.push_go fin t 0 fuel).1, (p.push_go fin t 0 fuel).2) from rfl, hres]
        constructor
        · intro ts hts
          exact hgo.1 ts hts
        · intro p2 h
          simp at h
      | some p2 =>
        rw [show p.push_go fin t 0 fuel
            = ((p.push_go fin t 0 fuel).1, (p.push_go fin t 0 fuel).2) from rfl, hres]
        obtain ⟨hp2, hmax⟩ := hgo.2 p2 hres
        have hrec := ih p2 (by rw [hmax]; exact hp2)
        constructor
        · intro ts hts
          simp only [List.mem_append] at hts
          rcases hts with h | h
          · exact hgo.1 ts h
          · have := hrec.1 ts h
            rwa [hmax] at this
        · intro p3 h
          obtain ⟨h3, hm3⟩ := hrec.2 p3 h
          rw [hmax] at h3 hm3
          exact ⟨h3, hm3⟩
  refine ⟨fun p rest hp => main rest p hp, ?_, ?_⟩
  · intro ts hts
    exact (main units (Parallelise.new (some n) num_cpus) (by simp [Parallelise.new])).1
      ts hts
  · intro p2 h
    exact ((main units (Parallelise.new (some n) num_cpus)
      (by simp [Parallelise.new])).2 p2 h).1

/-- Witness for C7: a capacity-2 pool absorbing four units (no task ever
finishing, ample fuel) never holds more than two tasks. -/
theorem parallelise_push_bounded_witness :
    (Parallelise.new (some 2) 4).tasks.length ≤ (Parallelise.new (some 2) 4).max_tasks ∧
    ∀ ts ∈ (Parallelise.push_all (fun _ _ => false) 3
        (Parallelise.new (some 2) 4) [1, 2, 3, 4]).1, ts.length ≤ 2 :=
  ⟨by decide,
    (parallelise_push_bounded (fun _ _ => false) 3 [1, 2, 3, 4] 2 4).2.1⟩

/-- `AssetIndexEntry` from `src/structures/asset_index.rs`. -/
structure AssetIndexEntry where
  hash : String
  path : String
  size : Nat
deriving DecidableEq

/-- `u64::MAX + 1`, the bound of the `size` field. -/
def u64Size : Nat := 2 ^ 64

/-- serde deserialization of `AssetIndexEntry`: an object with string
`hash` and `path` fields and a `u64` `size`; unknown fields are ignored
(serde's default). -/
def AssetIndexEntry.fromJson (j : Json) : Except String AssetIndexEntry :=
  match j with
  | .obj fields =>
    match lookupKey fields "hash", lookupKey fields "path", lookupKey fields "size" with
    | some (.str h), some (.str p), some (.num n) =>
      if 0 ≤ n ∧ n < (u64Size : Int) then .ok ⟨h, p, n.toNat⟩
      else .error "invalid size"
    | _, _, _ => .error "invalid entry"
  | _ => .error "invalid entry"

/-- serde serialization of `AssetIndexEntry`. -/
def AssetIndexEntry.toJson (e : AssetIndexEntry) : Json :=
  .obj [("hash", .str e.hash), ("path", .str e.path), ("size", .num e.size)]

/-- `HashMap::insert`: overwrite the binding if the key is present,
append otherwise. -/
def insertEntry (m : List (String × AssetIndexEntry)) (k : String)
    (v : AssetIndexEntry) : List (String × AssetIndexEntry) :=
  if k ∈ m.map Prod.fst then
    m.map (fun p => if p.1 = k then (k, v) else p)
  else m ++ [(k, v)]

/-- Deserializing the `objects` map: parse each entry in document order
and insert it (serde_json lets a later duplicate key overwrite). -/
def parseObjects : List (String × Json) → List (String × AssetIndexEntry) →
    Except String (List (String × AssetIndexEntry))
  | [], acc => .ok acc
  | (k, j) :: rest, acc =>
    match AssetIndexEntry.fromJson j with
    | .error e => .error e
    | .ok v => parseObjects rest (insertEntry acc k v)

/-- `AssetIndex` from `src/structures/asset_index.rs`; the `objects`
`HashMap` is an association list with unique keys. -/
structure AssetIndex where
  objects : List (String × AssetIndexEntry)
deriving DecidableEq

/-- serde deserialization of `AssetIndex` (`AssetIndex::parse` reads the
file and runs `serde_json::from_str`; the text-to-tree stage is the
library's, so the model parses from the document tree). -/
def AssetIndex.fromJson (j : Json) : Except String AssetIndex :=
  match j with
  | .obj fields =>
    match lookupKey fields "objects" with
    | some (.obj ofields) =>
      match parseObjects ofields [] with
      | .ok m => .ok ⟨m⟩
      | .error e => .error e
    | _ => .error "invalid asset index"
  | _ => .error "invalid asset index"

/-- serde serialization of `AssetIndex` (`serde_json::to_string` inside
`AssetIndex::save`), emitting entries in the map's iteration order. -/
def AssetIndex.toJson (x : AssetIndex) : Json :=
  .obj [("objects", .obj (x.objects.map (fun p => (p.1, p.2.toJson))))]

/-- The store of cached index documents, at document-tree level. -/
def JDisk := Path → Option Json

/-- `AssetIndex::save`: serialize and write under the indexes namespace
keyed by `sha1_hash` (no re-verification against the hash). -/
def AssetIndex.save (x : AssetIndex) (st : Storage) (jd : JDisk) (sha1_hash : String) :
    JDisk :=
  fun p => if p = st.get_index_path sha1_hash then some x.toJson else jd p

/-- The well-formedness deserialization guarantees for the `objects` map:
unique keys and `u64`-bounded sizes. -/
def GoodObjects (m : List (String × AssetIndexEntry)) : Prop :=
  (m.map Prod.fst).Nodup ∧ ∀ p ∈ m, p.2.size < u64Size

/-- Parsed entries have `u64`-bounded sizes. -/
theorem AssetIndexEntry.fromJson_size (j : Json) (e : AssetIndexEntry)
    (h : AssetIndexEntry.fromJson j = .ok e) : e.size < u64Size := by
  unfold AssetIndexEntry.fromJson at h
  split at h
  · split at h
    · split at h
      · rename_i hc
        simp only [Except.ok.injEq] at h
        subst h
        simp only [u64Size] at hc ⊢
        omega
      · cases h
    · cases h
  · cases h

/-- Serializing and re-parsing an in-bounds entry is the identity. -/
theorem AssetIndexEntry.roundtrip (e : AssetIndexEntry) (hs : e.size < u64Size) :
    AssetIndexEntry.fromJson e.toJson = .ok e := by
  have h1 : lookupKey [("hash", Json.str e.hash), ("path", Json.str e.path),
      ("size", Json.num e.size)] "hash" = some (Json.str e.hash) := rfl
  have h2 : lookupKey [("hash", Json.str e.hash), ("path", Json.str e.path),
      ("size", Json.num e.size)] "path" = some (Json.str e.path) := rfl
  have h3 : lookupKey [("hash", Json.str e.hash), ("path", Json.str e.path),
      ("size", Json.num e.size)] "size" = some (Json.num e.size) := rfl
  have hc : (0 : Int) ≤ (e.size : Int) ∧ (e.size : Int) < (u64Size : Int) := by
    constructor
    · exact_mod_cast Nat.zero_le _
    · exact_mod_cast hs
  simp only [AssetIndexEntry.toJson, AssetIndexEntry.fromJson, h1, h2, h3]
  rw [if_pos hc]
  simp

/-- Overwriting an existing key leaves the key list unchanged. -/
theorem map_fst_overwrite (m : List (String × AssetIndexEntry)) (k : String)
    (v : AssetIndexEntry) :
    (m.map (fun p => if p.1 = k then (k, v) else p)).map Prod.fst = m.map Prod.fst := by
  induction m with
  | nil => rfl
  | cons p rest ih =>
    by_cases hp : p.1 = k
    · simp [hp, ih]
    · simp [hp, ih]

/-- `insert` preserves the parse invariant. -/
theorem insertEntry_good (m : List (String × AssetIndexEntry)) (k : String)
    (v : AssetIndexEntry) (hm : GoodObjects m) (hv : v.size < u64Size) :
    GoodObjects (insertEntry m k v) := by
  obtain ⟨hnd, hb⟩ := hm
  unfold insertEntry
  by_cases h : k ∈ m.map Prod.fst
  · rw [if_pos h]
    constructor
    · rw [map_fst_overwrite]
      exact hnd
    · intro p hp
      simp only [List.mem_map] at hp
      obtain ⟨q, hq, hpq⟩ := hp
      by_cases hqk : q.1 = k
      · rw [if_pos hqk] at hpq
        subst hpq
        exact hv
      · rw [if_neg hqk] at hpq
        subst hpq
        exact hb q hq
  · rw [if_neg h]
    constructor
    · rw [List.map_append]
      simp only [List.map_cons, List.map_nil]
      rw [List.nodup_append]
      refine ⟨hnd, List.nodup_singleton k, ?_⟩
      intro a ha hak
      simp only [List.mem_singleton] at hak
      subst hak
      exact h ha
    · intro p hp
      rcases List.mem_append.mp hp with h1 | h1
      · exact hb p h1
      · simp only [List.mem_singleton] at h1
        subst h1
        exact hv

/-- Whatever the accumulator, `parseObjects` yields a map satisfying the
parse invariant whenever the accumulator does. -/
theorem parseObjects_good (fs : List (String × Json))
    (acc m : List (String × AssetIndexEntry)) (hacc : GoodObjects acc)
    (h : parseObjects fs acc = .ok m) : GoodObjects m := by
  induction fs generalizing acc with
  | nil =>
    simp only [parseObjects, Except.ok.injEq] at h
    subst h
    exact hacc
  | cons f rest ih =>
    obtain ⟨k, j⟩ := f
    simp only [parseObjects] at h
    cases hj : AssetIndexEntry.fromJson j with
    | error e =>
      rw [hj] at h
      cases h
    | ok v =>
      rw [hj] at h
      exact ih (insertEntry acc k v)
        (insertEntry_good acc k v hacc (AssetIndexEntry.fromJson_size j v hj)) h

/-- Unfolding one parse step on a successfully parsed head entry. -/
theorem parseObjects_cons_ok (k : String) (j : Json) (rest : List (String × Json))
    (acc : List (String × AssetIndexEntry)) (v : AssetIndexEntry)
    (hj : AssetIndexEntry.fromJson j = .ok v) :
    parseObjects ((k, j) :: rest) acc = parseObjects rest (insertEntry acc k v) := by
  simp only [parseObjects, hj]

/-- Re-parsing a serialized map with fresh, duplicate-free keys appends it
to the accumulator unchanged. -/
theorem parseObjects_roundtrip (m : List (String × AssetIndexEntry)) :
    ∀ acc : List (String × AssetIndexEntry),
      (((acc ++ m).map Prod.fst)).Nodup →
      (∀ p ∈ m, p.2.size < u64Size) →
      parseObjects (m.map (fun p => (p.1, p.2.toJson))) acc = .ok (acc ++ m) := by
  induction m with
  | nil =>
    intro acc hnd hb
    simp [parseObjects]
  | cons p rest ih =>
    intro acc hnd hb
    obtain ⟨k, v⟩ := p
    have hv : v.size < u64Size := hb (k, v) (List.mem_cons_self _ _)
    rw [List.map_cons, parseObjects_cons_ok k (v.toJson) _ acc v
      (AssetIndexEntry.roundtrip v hv)]
    have hk : k ∉ acc.map Prod.fst := by
      rw [List.map_append, List.nodup_append] at hnd
      intro hmem
      exact hnd.2.2 hmem (by simp)
    unfold insertEntry
    rw [if_neg hk]
    have hnd2 : (((acc ++ [(k, v)]) ++ rest).map Prod.fst).Nodup := by
      rw [List.append_assoc, List.singleton_append]
      exact hnd
    have h2 := ih (acc ++ [(k, v)]) hnd2
      (fun q hq => hb q (List.mem_cons_of_mem _ hq))
    rw [List.append_assoc, List.singleton_append] at h2
    exact h2

/-- A parsed `AssetIndex` satisfies the parse invariant. -/
theorem assetIndex_fromJson_good (j : Json) (x : AssetIndex)
    (h : AssetIndex.fromJson j = .ok x) : GoodObjects x.objects := by
  unfold AssetIndex.fromJson at h
  split at h
  · split at h
    · rename_i ofields hpo
      split at h
      · rename_i m hm
        simp only [Except.ok.injEq] at h
        subst h
        exact parseObjects_good ofields [] m ⟨List.nodup_nil, by simp⟩ hm
      · cases h
    · cases h
  · cases h

/-- Serializing and re-parsing a parsed `AssetIndex` is the identity. -/
theorem assetIndex_roundtrip_core (x : AssetIndex) (hg : GoodObjects x.objects) :
    AssetIndex.fromJson x.toJson = .ok x := by
  obtain ⟨m⟩ := x
  obtain ⟨hnd, hb⟩ := hg
  have hro := parseObjects_roundtrip m [] (by simpa using hnd) hb
  simp only [List.nil_append] at hro
  have h1 : lookupKey [("objects", Json.obj (m.map (fun p => (p.1, p.2.toJson))))]
      "objects" = some (Json.obj (m.map (fun p => (p.1, p.2.toJson)))) := rfl
  simp only [AssetIndex.toJson, AssetIndex.fromJson, h1, hro]

/-- C9: for any document that parses to an `AssetIndex`, `save` writes the
serialized form under the indexes namespace keyed by the hash, and
re-parsing the written document yields a structurally equal `AssetIndex` —
the very same `objects` mapping, key for key and field for field. -/
theorem asset_index_roundtrip (j : Json) (x : AssetIndex) (st : Storage) (jd : JDisk)
    (sha1_hash : String) (hp : AssetIndex.fromJson j = .ok x) :
    (x.save st jd sha1_hash) (st.get_index_path sha1_hash) = some x.toJson ∧
    AssetIndex.fromJson x.toJson = .ok x := by
  refine ⟨by simp [AssetIndex.save], ?_⟩
  exact assetIndex_roundtrip_core x (assetIndex_fromJson_good j x hp)

/-- Witness for C9 on a concrete one-entry document. -/
theorem asset_index_roundtrip_witness :
    AssetIndex.fromJson
        (.obj [("objects", .obj [("a", .obj [("hash", .str "h1"), ("path", .str "p1"),
          ("size", .num 10)])])])
      = .ok ⟨[("a", ⟨"h1", "p1", 10⟩)]⟩ ∧
    AssetIndex.fromJson (AssetIndex.toJson ⟨[("a", ⟨"h1", "p1", 10⟩)]⟩)
      = .ok ⟨[("a", ⟨"h1", "p1", 10⟩)]⟩ :=
  ⟨rfl,
    (asset_index_roundtrip
      (.obj [("objects", .obj [("a", .obj [("hash", .str "h1"), ("path", .str "p1"),
        ("size", .num 10)])])])
      ⟨[("a", ⟨"h1", "p1", 10⟩)]⟩ ⟨⟨"g/"⟩, ["r"]⟩ (fun _ => none) "aa" rfl).2⟩

end FireLaunch
